import Mathlib

/-!
# Verification of the simple-cidr-calculator engine

Shallow embedding of the Go CIDR calculator.  IP addresses are modelled as
lists of byte values (`List Nat`, each element `< 256`, index 0 most
significant), and Go strings as lists of ASCII byte values.  The functions
are translated from the repository's calculator source and `models.go`;
functions of Go's `net` and `strconv` standard-library packages that the
calculator calls are modelled from their semantics and named `net...`.
-/

namespace CIDRCalc

/-- ASCII byte values of a Lean string literal; used to write concrete inputs. -/
def strBytes (s : String) : List Nat := s.data.map (fun c => c.toNat)

/-- Numeric value of a byte list, big-endian (byte 0 is most significant). -/
def ipToNat : List Nat → Nat
  | [] => 0
  | b :: rest => b * 256 ^ rest.length + ipToNat rest

/-- Validity: every byte fits in 8 bits (Go's `byte` type guarantees this). -/
def IPOk (ip : List Nat) : Prop := ∀ b ∈ ip, b < 256

instance (ip : List Nat) : Decidable (IPOk ip) := List.decidableBAll _ ip

/-- Translation of `calculateWildcardMask` from the calculator source:
complement of every byte of the subnet mask.  Go computes `^b` on a `byte`,
which equals `255 - b`. -/
def calculateWildcardMask (subnetMask : List Nat) : List Nat :=
  subnetMask.map (fun b => 255 - b)

/-- Translation of `calculateBroadcastAddress`: byte-wise OR of the network
id with the wildcard mask.  Go indexes `wildcardMask` by `networkID`'s
indices (panicking if it is shorter); `zipWith` agrees with that loop
whenever the wildcard mask is at least as long as the network id, which
holds at every call site reached in this development. -/
def calculateBroadcastAddress (networkID wildcardMask : List Nat) : List Nat :=
  List.zipWith (fun x y => x ||| y) networkID wildcardMask

/-- Right-to-left pass of `incrementIP`: the Go loop walks from the last
byte towards the first, incrementing (with wrap at 256) while the
incremented byte became zero.  The `Bool` is true while the carry is live. -/
def incBytes : List Nat → List Nat × Bool
  | [] => ([], true)
  | b :: rest =>
    let r := incBytes rest
    if r.2 then
      let b2 := (b + 1) % 256
      (b2 :: r.1, b2 == 0)
    else (b :: r.1, false)

/-- Translation of `incrementIP`. -/
def incrementIP (ip : List Nat) : List Nat := (incBytes ip).1

/-- Right-to-left pass of `decrementIP`: walking from the last byte, a
non-zero byte is decremented and the loop stops; a zero byte becomes 255 and
the borrow continues. -/
def decBytes : List Nat → List Nat × Bool
  | [] => ([], true)
  | b :: rest =>
    let r := decBytes rest
    if r.2 then
      if b ≠ 0 then ((b - 1) :: r.1, false) else (255 :: r.1, true)
    else (b :: r.1, false)

/-- Translation of `decrementIP`. -/
def decrementIP (ip : List Nat) : List Nat := (decBytes ip).1

/-- Translation of `addToIP`: interprets the first four bytes as a
big-endian `uint32`, adds `value` with wraparound, and writes the four bytes
back (Go's `byte(x)` conversion is reduction modulo 256).  Go panics when
the slice has fewer than four bytes; that case is modelled as the identity
and is never reached below (`addToIP` is only applied to four-byte
addresses in the claims). -/
def addToIP (ip : List Nat) (value : Nat) : List Nat :=
  match ip with
  | b0 :: b1 :: b2 :: b3 :: rest =>
    let n := ((b0 <<< 24) + (b1 <<< 16) + (b2 <<< 8) + b3 + value) % 2 ^ 32
    ((n >>> 24) % 256) :: ((n >>> 16) % 256) :: ((n >>> 8) % 256) :: (n % 256) :: rest
  | _ => ip

/-- Translation of `NetworkInfo` from `models.go`.  `TotalHosts` is a Go
`uint32`, modelled as a `Nat` that the code keeps below `2 ^ 32`;
`PrefixLength` is a Go `int` that is never negative here (it comes from
`net.IPMask.Size`).  The redundant `Network net.IPNet` field (a copy of the
network id and mask) is omitted. -/
structure NetworkInfo where
  networkID : List Nat
  broadcastAddr : List Nat
  subnetMask : List Nat
  wildcardMask : List Nat
  firstUsableIP : List Nat
  lastUsableIP : List Nat
  totalHosts : Nat
  prefixLength : Nat
deriving DecidableEq, Repr

/-- Width, in bits, of the Go type of `NetworkInfo.TotalHosts` (`models.go`
declares it `uint32`). -/
def totalHostsBitWidth : Nat := 32

/-- The intermediate `uint32` value `1 << uint(hostBits)` computed by
`calculateUsableRange` with `hostBits = 32 - prefixLength`: a Go shift of a
`uint32` by 32 or more yields 0, i.e. the mathematical shift reduced modulo
`2 ^ 32`; when `prefixLength > 32`, `hostBits` is negative and `uint(hostBits)`
is astronomically large, so the shifted value is 0 as well. -/
def hostCountShiftU32 (prefixLength : Nat) : Nat :=
  if prefixLength ≤ 32 then (1 <<< (32 - prefixLength)) % 2 ^ 32 else 0

/-- Translation of `calculateUsableRange`: three-way policy on the prefix
length.  In the default branch the Go source's two `if`/`else` arms are
textually identical, so they are modelled once; `TotalHosts` is a `uint32`,
so the trailing `- 2` subtraction also wraps modulo `2 ^ 32`. -/
def calculateUsableRange (info : NetworkInfo) : NetworkInfo :=
  if info.prefixLength = 32 then
    { info with firstUsableIP := info.networkID, lastUsableIP := info.networkID,
                totalHosts := 1 }
  else if info.prefixLength = 31 then
    { info with firstUsableIP := info.networkID, lastUsableIP := info.broadcastAddr,
                totalHosts := 2 }
  else
    { info with firstUsableIP := incrementIP info.networkID,
                lastUsableIP := decrementIP info.broadcastAddr,
                totalHosts := (hostCountShiftU32 info.prefixLength + (2 ^ 32 - 2)) % 2 ^ 32 }

/-- Model of `strings.Split` on a single-byte separator. -/
def stringsSplit (sep : Nat) : List Nat → List (List Nat)
  | [] => [[]]
  | c :: rest =>
    let r := stringsSplit sep rest
    if c = sep then [] :: r
    else
      match r with
      | h :: t => (c :: h) :: t
      | [] => [[c]]

/-- Model of Go's `net.dtoi`: reads leading decimal digits, capping the value
at 0xFFFFFF; accumulator `n`, bytes consumed `i`. -/
def dtoiAux : List Nat → Nat → Nat → Nat × Nat × Bool
  | [], n, i => if i = 0 then (0, 0, false) else (n, i, true)
  | c :: rest, n, i =>
    if 48 ≤ c ∧ c ≤ 57 then
      let n2 := n * 10 + (c - 48)
      if 0xFFFFFF ≤ n2 then (0xFFFFFF, i + 1, false)
      else dtoiAux rest n2 (i + 1)
    else if i = 0 then (0, 0, false) else (n, i, true)

/-- Model of Go's `net.dtoi`: (value, bytes consumed, ok). -/
def dtoi (s : List Nat) : Nat × Nat × Bool := dtoiAux s 0 0

/-- Model of Go's `net.xtoi` (hexadecimal variant of `dtoi`). -/
def xtoiAux : List Nat → Nat → Nat → Nat × Nat × Bool
  | [], n, i => if i = 0 then (0, 0, false) else (n, i, true)
  | c :: rest, n, i =>
    let d? : Option Nat :=
      if 48 ≤ c ∧ c ≤ 57 then some (c - 48)
      else if 97 ≤ c ∧ c ≤ 102 then some (c - 97 + 10)
      else if 65 ≤ c ∧ c ≤ 70 then some (c - 65 + 10)
      else none
    match d? with
    | none => if i = 0 then (0, 0, false) else (n, i, true)
    | some d =>
      let n2 := n * 16 + d
      if 0xFFFFFF ≤ n2 then (0, i, false)
      else xtoiAux rest n2 (i + 1)

/-- Model of Go's `net.xtoi`: (value, bytes consumed, ok). -/
def xtoi (s : List Nat) : Nat × Nat × Bool := xtoiAux s 0 0

/-- Field loop of Go's IPv4 dotted-decimal parser (`parseIPv4`): exactly four
decimal fields separated by single dots, each at most 255 with no leading
zeros (Go 1.17 and later), and no trailing bytes. -/
def parseV4Fields : Nat → Bool → List Nat → List Nat → Option (List Nat)
  | 0, _, s, acc => if s.isEmpty then some acc.reverse else none
  | k + 1, first, s, acc =>
    if s.isEmpty then none
    else
      let s2? : Option (List Nat) :=
        if first then some s
        else if s.headD 0 = 46 then some s.tail
        else none
      match s2? with
      | none => none
      | some s2 =>
        let r := dtoi s2
        if r.2.2 = false ∨ 255 < r.1 then none
        else if 1 < r.2.1 ∧ s2.headD 0 = 48 then none
        else parseV4Fields k false (s2.drop r.2.1) (r.1 :: acc)

/-- Model of Go's IPv4 address parser; yields the four byte values. -/
def parseIPv4Go (s : List Nat) : Option (List Nat) := parseV4Fields 4 true s []

/-- Field loop of Go's IPv6 parser (`parseIPv6`): `acc` holds the bytes
assembled so far, `ell` the byte position of a `::` ellipsis if one was
seen.  Returns the assembled bytes, the ellipsis position, and the
unconsumed input. -/
def parseV6Fields : Nat → List Nat → List Nat → Option Nat →
    Option (List Nat × Option Nat × List Nat)
  | 0, s, acc, ell => some (acc, ell, s)
  | fuel + 1, s, acc, ell =>
    if 16 ≤ acc.length then some (acc, ell, s)
    else
      let r := xtoi s
      if r.2.2 = false ∨ 0xFFFF < r.1 then none
      else if r.2.1 < s.length ∧ s.getD r.2.1 0 = 46 then
        if ell.isNone ∧ acc.length ≠ 12 then none
        else if 16 < acc.length + 4 then none
        else
          match parseIPv4Go s with
          | none => none
          | some ip4 => some (acc ++ ip4, ell, [])
      else
        let acc2 := acc ++ [r.1 >>> 8, r.1 % 256]
        let s2 := s.drop r.2.1
        if s2.isEmpty then some (acc2, ell, [])
        else if s2.headD 0 ≠ 58 ∨ s2.length = 1 then none
        else
          let s3 := s2.drop 1
          if s3.headD 0 = 58 then
            if ell.isSome then none
            else
              let s4 := s3.drop 1
              if s4.isEmpty then some (acc2, some acc2.length, [])
              else parseV6Fields fuel s4 acc2 (some acc2.length)
          else parseV6Fields fuel s3 acc2 ell

/-- Model of Go's IPv6 address parser: hexadecimal fields, at most one `::`
ellipsis (expanded with zero bytes), optional embedded dotted-IPv4 tail;
produces 16 bytes. -/
def parseIPv6Go (s : List Nat) : Option (List Nat) :=
  let lead := 2 ≤ s.length ∧ s.headD 0 = 58 ∧ s.getD 1 0 = 58
  let s0 := if lead then s.drop 2 else s
  let ell0 : Option Nat := if lead then some 0 else none
  if lead ∧ s0.isEmpty then some (List.replicate 16 0)
  else
    match parseV6Fields 16 s0 [] ell0 with
    | none => none
    | some (acc, ell, rest) =>
      if rest.isEmpty = false then none
      else if acc.length < 16 then
        match ell with
        | none => none
        | some e => some (acc.take e ++ List.replicate (16 - acc.length) 0 ++ acc.drop e)
      else if ell.isSome then none
      else some acc

/-- A parsed Go IP: `net.ParseIP` yields a 4-byte slice for IPv4 text and a
16-byte slice for IPv6 text. -/
inductive GoIP where
  | v4 : List Nat → GoIP
  | v6 : List Nat → GoIP
deriving DecidableEq, Repr

/-- Underlying byte slice of a parsed IP. -/
def GoIP.bytes : GoIP → List Nat
  | .v4 b => b
  | .v6 b => b

/-- Character dispatch of Go's address parser: the first special byte decides
the family (dot IPv4, colon IPv6); a `%` (zone start) before any dot or colon
is an error, and so is text with no special byte at all. -/
def ipDispatch : List Nat → Option Bool
  | [] => none
  | c :: rest =>
    if c = 46 then some true
    else if c = 58 then some false
    else if c = 37 then none
    else ipDispatch rest

/-- Model of `net.ParseIP` (zoned addresses are rejected). -/
def netParseIP (s : List Nat) : Option GoIP :=
  match ipDispatch s with
  | some true => (parseIPv4Go s).map GoIP.v4
  | some false => (parseIPv6Go s).map GoIP.v6
  | none => none

/-- Model of `net.IP.To4`: 4-byte addresses are returned as is; 16-byte
IPv4-mapped addresses (ten zero bytes, then 0xff 0xff) are shortened to the
last four bytes; every other address yields `none`. -/
def ipTo4 : GoIP → Option (List Nat)
  | .v4 b => some b
  | .v6 b =>
    if b.take 10 = List.replicate 10 0 ∧ b.getD 10 0 = 255 ∧ b.getD 11 0 = 255 then
      some (b.drop 12)
    else none

/-- Model of `strconv.Atoi` on 64-bit Go: optional sign, decimal digits,
error on empty text, stray characters, or 64-bit overflow. -/
def netAtoi (s : List Nat) : Option Int :=
  match s with
  | [] => none
  | c :: rest =>
    let digits := if c = 45 ∨ c = 43 then rest else s
    if digits.isEmpty then none
    else if ∀ d ∈ digits, 48 ≤ d ∧ d ≤ 57 then
      let n : Nat := digits.foldl (fun a d => a * 10 + (d - 48)) 0
      if c = 45 then
        if 2 ^ 63 < n then none else some (-(n : Int))
      else if 2 ^ 63 - 1 < n then none else some (n : Int)
    else none

/-- Byte loop of Go's `net.CIDRMask`: `l` remaining bytes, `n` remaining one
bits; a partial byte is `^byte(0xff >> n)`, i.e. `255 - (255 >>> n)`. -/
def cidrMaskBytes : Nat → Nat → List Nat
  | 0, _ => []
  | l + 1, n =>
    if 8 ≤ n then 255 :: cidrMaskBytes l (n - 8)
    else (255 - (255 >>> n)) :: cidrMaskBytes l 0

/-- Model of `net.CIDRMask ones bits` (callers below establish
`ones ≤ bits` and `bits ∈ {32, 128}`, where Go cannot return nil). -/
def netCIDRMask (ones bits : Nat) : List Nat := cidrMaskBytes (bits / 8) ones

/-- Leading-ones count of a single mask byte, when the byte is of the form
one bits followed by zero bits (the inner loop of Go's `simpleMaskSize`). -/
def leadingOnesByte (b : Nat) : Option Nat :=
  if b = 0 then some 0 else if b = 128 then some 1 else if b = 192 then some 2
  else if b = 224 then some 3 else if b = 240 then some 4 else if b = 248 then some 5
  else if b = 252 then some 6 else if b = 254 then some 7 else if b = 255 then some 8
  else none

/-- Model of the ones count of `net.IPMask.Size` (`simpleMaskSize`): `some n`
when the mask is `n` one bits followed by zero bits, `none` otherwise (where
Go reports 0). -/
def maskOnes : List Nat → Option Nat
  | [] => some 0
  | b :: rest =>
    if b = 255 then (maskOnes rest).map (fun n => 8 + n)
    else
      match leadingOnesByte b with
      | none => none
      | some k => if ∀ x ∈ rest, x = 0 then some k else none

/-- The 12-byte IPv4-in-IPv6 marker used by `net.IP.Mask`. -/
def v4InV6Pre : List Nat := [0, 0, 0, 0, 0, 0, 0, 0, 0, 0, 255, 255]

/-- Model of `net.IP.Mask`: after the two length-adaptation cases, byte-wise
AND of address and mask (empty result when the lengths still differ, where Go
returns nil). -/
def ipMaskGo (ip mask : List Nat) : List Nat :=
  let mask2 :=
    if mask.length = 16 ∧ ip.length = 4 ∧ (∀ x ∈ mask.take 12, x = 255) then mask.drop 12
    else mask
  let ip2 :=
    if mask2.length = 4 ∧ ip.length = 16 ∧ ip.take 12 = v4InV6Pre then ip.drop 12
    else ip
  if ip2.length ≠ mask2.length then []
  else List.zipWith (fun x y => x &&& y) ip2 mask2

/-- Index of the first byte equal to `c`. -/
def idxOfByte (c : Nat) : List Nat → Option Nat
  | [] => none
  | a :: rest => if a = c then some 0 else (idxOfByte c rest).map (fun i => i + 1)

/-- Model of `net.ParseCIDR`: split at the first slash, parse the address
(IPv4 first, else IPv6), parse the prefix with `dtoi` (all bytes must be
consumed and the value at most 8 times the address length), and return the
original address, the masked network address, and the mask. -/
def netParseCIDR (s : List Nat) : Option (GoIP × List Nat × List Nat) :=
  match idxOfByte 47 s with
  | none => none
  | some i =>
    let addr := s.take i
    let maskStr := s.drop (i + 1)
    let ip? : Option GoIP :=
      match parseIPv4Go addr with
      | some b => some (GoIP.v4 b)
      | none => (parseIPv6Go addr).map GoIP.v6
    match ip? with
    | none => none
    | some ip =>
      let r := dtoi maskStr
      if r.2.2 = false ∨ r.2.1 ≠ maskStr.length ∨ 8 * ip.bytes.length < r.1 then none
      else
        let m := netCIDRMask r.1 (8 * ip.bytes.length)
        some (ip, ipMaskGo ip.bytes m, m)

/-- The error results of `validateCIDRFormat` and `ParseCIDR`, one
constructor per `fmt.Errorf` site of the calculator source, tagged with the
message it carries. -/
inductive ParseErr where
  /-- Message: CIDR notation cannot be empty. -/
  | emptyInput
  /-- Message: invalid CIDR notation. Expected format: x.x.x.x/y. -/
  | badFormat
  /-- Message: invalid IP address format. -/
  | badAddress
  /-- Message: IPv6 is not supported, please provide an IPv4 address. -/
  | ipv6Address
  /-- Message: invalid prefix length (must be a number between 0 and 32). -/
  | badPrefixDigits
  /-- Message: prefix length must be between 0 and 32. -/
  | prefixOutOfRange
  /-- Message: invalid CIDR notation (re-raised from `net.ParseCIDR`). -/
  | invalidCIDR
  /-- Message: IPv6 is not supported, please provide an IPv4 CIDR. -/
  | ipv6CIDR
deriving DecidableEq, Repr

/-- The four error kinds of the specification. -/
inductive ErrKind where
  | emptyInputError
  | formatError
  | protocolError
  | rangeError
deriving DecidableEq, Repr

/-- Classification of each produced error under the specification's error
kinds: empty input; malformed CIDR syntax, malformed address, or non-numeric
prefix (format); IPv6 text (protocol); prefix outside [0,32] (range). -/
def ParseErr.kind : ParseErr → ErrKind
  | .emptyInput => .emptyInputError
  | .badFormat => .formatError
  | .badAddress => .formatError
  | .ipv6Address => .protocolError
  | .badPrefixDigits => .formatError
  | .prefixOutOfRange => .rangeError
  | .invalidCIDR => .formatError
  | .ipv6CIDR => .protocolError

/-- Translation of `validateCIDRFormat`; `none` means the input is valid. -/
def validateCIDRFormat (cidr : List Nat) : Option ParseErr :=
  if cidr.isEmpty then some .emptyInput
  else if 47 ∉ cidr then some .badFormat
  else
    let parts := stringsSplit 47 cidr
    if parts.length ≠ 2 then some .badFormat
    else
      let ipStr := parts.headD []
      let preStr := parts.getD 1 []
      match netParseIP ipStr with
      | none => some .badAddress
      | some ip =>
        if (ipTo4 ip).isNone then some .ipv6Address
        else
          match netAtoi preStr with
          | none => some .badPrefixDigits
          | some n => if n < 0 ∨ 32 < n then some .prefixOutOfRange else none

/-- Translation of `ParseCIDR`: format validation, `net.ParseCIDR`, the
IPv4-only check, then the derived network information (`calculateUsableRange`
fills the usable range and host count). -/
def ParseCIDR (cidr : List Nat) : Except ParseErr NetworkInfo :=
  match validateCIDRFormat cidr with
  | some e => .error e
  | none =>
    match netParseCIDR cidr with
    | none => .error .invalidCIDR
    | some (ip, netIP, mask) =>
      if (ipTo4 ip).isNone then .error .ipv6CIDR
      else
        let wc := calculateWildcardMask mask
        Except.ok (calculateUsableRange
          { networkID := netIP
            broadcastAddr := calculateBroadcastAddress netIP wc
            subnetMask := mask
            wildcardMask := wc
            firstUsableIP := []
            lastUsableIP := []
            totalHosts := 0
            prefixLength := (maskOnes mask).getD 0 })

/-- Translation of `SubnetInfo` from `models.go` (`CIDR` is a Go string,
modelled as a byte list). -/
structure SubnetInfo where
  networkID : List Nat
  cidr : List Nat
  broadcastAddr : List Nat
deriving DecidableEq, Repr

instance : DecidableEq (Except ParseErr NetworkInfo) := fun a b =>
  match a, b with
  | .error x, .error y =>
    if h : x = y then isTrue (by rw [h]) else isFalse (by simp [h])
  | .ok x, .ok y =>
    if h : x = y then isTrue (by rw [h]) else isFalse (by simp [h])
  | .error _, .ok _ => isFalse (by simp)
  | .ok _, .error _ => isFalse (by simp)

/-- Convenience constructor for a bare descriptor, as `ParseCIDR` builds it
before `calculateUsableRange` fills in the usable range and host count. -/
def mkInfo (nid bc mask wc : List Nat) (pl : Nat) : NetworkInfo :=
  { networkID := nid
    broadcastAddr := bc
    subnetMask := mask
    wildcardMask := wc
    firstUsableIP := []
    lastUsableIP := []
    totalHosts := 0
    prefixLength := pl }

/-- Decimal digits (ASCII) of a natural number, as Go renders integers. -/
def natDec (n : Nat) : List Nat :=
  if n < 10 then [48 + n]
  else natDec (n / 10) ++ [48 + n % 10]
termination_by n
decreasing_by exact Nat.div_lt_self (by omega) (by omega)

/-- Dotted-decimal text of a four-byte address (`net.IP.String` for IPv4). -/
def formatIPv4 (ip : List Nat) : List Nat :=
  (List.intersperse [46] (ip.map natDec)).flatten

/-- Model of `net.IP.String`: dotted decimal for 4-byte and for IPv4-mapped
16-byte addresses.  The hexadecimal IPv6 textual form is not modelled
(returned as empty text); no theorem below depends on it, since every
formatted address in the claims is IPv4. -/
def ipString (ip : List Nat) : List Nat :=
  if ip.length = 4 then formatIPv4 ip
  else if ip.length = 16 ∧ ip.take 10 = List.replicate 10 0 ∧ ip.getD 10 0 = 255 ∧
      ip.getD 11 0 = 255 then
    formatIPv4 (ip.drop 12)
  else []

/-- Translation of `calculateSubnetBroadcast`. -/
def calculateSubnetBroadcast (networkID : List Nat) (prefixLength : Nat) : List Nat :=
  let subnetMask := netCIDRMask prefixLength 32
  let wildcardMask := calculateWildcardMask subnetMask
  calculateBroadcastAddress networkID wildcardMask

/-- Loop body of `CalculateSubnets`: `count` remaining iterations, `cur` the
running network id, `nextLen` the child prefix length, `size` the child
block size. -/
def subnetsLoop : Nat → List Nat → Nat → Nat → List SubnetInfo
  | 0, _, _, _ => []
  | count + 1, cur, nextLen, size =>
    { networkID := cur
      cidr := ipString cur ++ 47 :: natDec nextLen
      broadcastAddr := calculateSubnetBroadcast cur nextLen }
      :: subnetsLoop count (addToIP cur size) nextLen size

/-- Translation of `CalculateSubnets`: no subnets at prefix 32, otherwise the
next prefix level is walked `numSubnets` times, where `numSubnets` is
`1 << (nextLen - prefixLength)` (always 2) unless the 100-cap branch fires. -/
def CalculateSubnets (network : NetworkInfo) : List SubnetInfo :=
  if 32 ≤ network.prefixLength then []
  else
    let nextLen := network.prefixLength + 1
    let subnetSize := (1 <<< (32 - nextLen)) % 2 ^ 32
    let numSubnets := 1 <<< (nextLen - network.prefixLength)
    let numSubnets2 := if network.prefixLength ≤ 16 ∧ 100 < numSubnets then 100 else numSubnets
    subnetsLoop numSubnets2 network.networkID nextLen subnetSize

/-! ## Basic facts about byte lists -/

theorem ipToNat_nil : ipToNat [] = 0 := rfl

theorem ipToNat_cons (b : Nat) (rest : List Nat) :
    ipToNat (b :: rest) = b * 256 ^ rest.length + ipToNat rest := rfl

theorem IPOk_nil : IPOk [] := by
  intro b hb
  cases hb

theorem IPOk_cons {b : Nat} {rest : List Nat} :
    IPOk (b :: rest) ↔ b < 256 ∧ IPOk rest := by
  constructor
  · intro h
    exact ⟨h b (List.mem_cons_self b rest), fun x hx => h x (List.mem_cons_of_mem b hx)⟩
  · rintro ⟨h1, h2⟩ x hx
    rcases List.mem_cons.mp hx with rfl | hx
    · exact h1
    · exact h2 x hx

theorem ipToNat_lt {bs : List Nat} (h : IPOk bs) : ipToNat bs < 256 ^ bs.length := by
  induction bs with
  | nil => simp [ipToNat_nil]
  | cons b rest ih =>
    rcases IPOk_cons.mp h with ⟨hb, hrest⟩
    have := ih hrest
    simp only [ipToNat_cons, List.length_cons, pow_succ]
    nlinarith

/-! ## Increment and decrement on four-byte addresses -/

/-- Closed form of `incrementIP` on a four-byte address. -/
theorem incrementIP_four (a b c d : Nat) :
    incrementIP [a, b, c, d] =
      if (d + 1) % 256 = 0 then
        if (c + 1) % 256 = 0 then
          if (b + 1) % 256 = 0 then [(a + 1) % 256, 0, 0, 0]
          else [a, (b + 1) % 256, 0, 0]
        else [a, b, (c + 1) % 256, 0]
      else [a, b, c, (d + 1) % 256] := by
  by_cases h1 : (d + 1) % 256 = 0 <;> by_cases h2 : (c + 1) % 256 = 0 <;>
    by_cases h3 : (b + 1) % 256 = 0 <;>
    simp [incrementIP, incBytes, h1, h2, h3]

/-- Closed form of `decrementIP` on a four-byte address. -/
theorem decrementIP_four (a b c d : Nat) :
    decrementIP [a, b, c, d] =
      if d ≠ 0 then [a, b, c, d - 1]
      else if c ≠ 0 then [a, b, c - 1, 255]
      else if b ≠ 0 then [a, b - 1, 255, 255]
      else if a ≠ 0 then [a - 1, 255, 255, 255]
      else [255, 255, 255, 255] := by
  by_cases h1 : d = 0 <;> by_cases h2 : c = 0 <;> by_cases h3 : b = 0 <;>
    by_cases h4 : a = 0 <;>
    simp [decrementIP, decBytes, h1, h2, h3, h4]

theorem incrementIP_spec {ip : List Nat} (hlen : ip.length = 4) (hok : IPOk ip) :
    ipToNat (incrementIP ip) = (ipToNat ip + 1) % 2 ^ 32 ∧
    (incrementIP ip).length = 4 ∧ IPOk (incrementIP ip) := by
  rcases ip with _ | ⟨a, _ | ⟨b, _ | ⟨c, _ | ⟨d, _ | _⟩⟩⟩⟩ <;> simp_all
  have ha : a < 256 := hok a (by simp)
  have hb : b < 256 := hok b (by simp)
  have hc : c < 256 := hok c (by simp)
  have hd : d < 256 := hok d (by simp)
  rw [incrementIP_four]
  split_ifs with h1 h2 h3 <;>
    refine ⟨by simp only [ipToNat_cons, ipToNat_nil, List.length_cons, List.length_nil]; omega,
      by simp, ?_⟩ <;>
    · intro x hx
      simp only [List.mem_cons, List.not_mem_nil, or_false] at hx
      omega

theorem decrementIP_spec {ip : List Nat} (hlen : ip.length = 4) (hok : IPOk ip) :
    ipToNat (decrementIP ip) = (ipToNat ip + (2 ^ 32 - 1)) % 2 ^ 32 ∧
    (decrementIP ip).length = 4 ∧ IPOk (decrementIP ip) := by
  rcases ip with _ | ⟨a, _ | ⟨b, _ | ⟨c, _ | ⟨d, _ | _⟩⟩⟩⟩ <;> simp_all
  have ha : a < 256 := hok a (by simp)
  have hb : b < 256 := hok b (by simp)
  have hc : c < 256 := hok c (by simp)
  have hd : d < 256 := hok d (by simp)
  rw [decrementIP_four]
  split_ifs with h1 h2 h3 h4 <;>
    refine ⟨by simp only [ipToNat_cons, ipToNat_nil, List.length_cons, List.length_nil]; omega,
      by simp, ?_⟩ <;>
    · intro x hx
      simp only [List.mem_cons, List.not_mem_nil, or_false] at hx
      omega

/-! ## addToIP on four-byte addresses -/

theorem addToIP_spec {ip : List Nat} (v : Nat) (hlen : ip.length = 4) (hok : IPOk ip) :
    ipToNat (addToIP ip v) = (ipToNat ip + v) % 2 ^ 32 ∧
    (addToIP ip v).length = 4 ∧ IPOk (addToIP ip v) := by
  rcases ip with _ | ⟨a, _ | ⟨b, _ | ⟨c, _ | ⟨d, _ | _⟩⟩⟩⟩ <;> simp_all
  have ha : a < 256 := hok a (by simp)
  have hb : b < 256 := hok b (by simp)
  have hc : c < 256 := hok c (by simp)
  have hd : d < 256 := hok d (by simp)
  refine ⟨?_, by simp [addToIP], ?_⟩
  · simp only [addToIP, ipToNat, Nat.shiftLeft_eq, Nat.shiftRight_eq_div_pow]
    simp only [List.length_nil, List.length_cons]
    norm_num
    omega
  · intro x hx
    simp only [addToIP, List.mem_cons, List.not_mem_nil, or_false] at hx
    rcases hx with rfl | rfl | rfl | rfl <;> omega

/-! ## Byte-level facts, checked by enumeration over the 8-bit domain -/

theorem pow256 (l : Nat) : (256 : Nat) ^ l = 2 ^ (8 * l) := by
  rw [show (256 : Nat) = 2 ^ 8 from rfl, ← pow_mul]

theorem byteWcHead : ∀ n < 8, 255 - (255 - (255 >>> n)) = 255 >>> n := by decide

theorem byteShiftVal : ∀ n < 8, 255 >>> n = 2 ^ (8 - n) - 1 := by decide

set_option maxRecDepth 8000 in
theorem byteLorLow :
    ∀ b < 256, ∀ n < 8, b % 2 ^ (8 - n) = 0 → b ||| (255 >>> n) = b + (255 >>> n) := by
  decide

theorem byteMaskNe255 : ∀ n < 8, 255 - (255 >>> n) ≠ 255 := by decide

theorem byteLeadingOnes : ∀ n < 8, leadingOnesByte (255 - (255 >>> n)) = some n := by decide

set_option maxRecDepth 8000 in
theorem byteXorComp : ∀ b < 256, b ^^^ (255 - b) = 255 := by decide

/-! ## Facts about CIDR masks -/

theorem cidrMaskBytes_succ (l n : Nat) :
    cidrMaskBytes (l + 1) n =
      if 8 ≤ n then 255 :: cidrMaskBytes l (n - 8)
      else (255 - (255 >>> n)) :: cidrMaskBytes l 0 := rfl

theorem cidrMaskBytes_length : ∀ l n : Nat, (cidrMaskBytes l n).length = l := by
  intro l
  induction l with
  | zero => intro n; rfl
  | succ l ih =>
    intro n
    rw [cidrMaskBytes_succ]
    split_ifs <;> simp [ih]

theorem cidrMaskBytes_zero : ∀ l : Nat, cidrMaskBytes l 0 = List.replicate l 0 := by
  intro l
  induction l with
  | zero => rfl
  | succ l ih =>
    rw [cidrMaskBytes_succ, if_neg (by omega), ih]
    norm_num [List.replicate_succ]

theorem cidrMaskBytes_ok : ∀ l n : Nat, IPOk (cidrMaskBytes l n) := by
  intro l
  induction l with
  | zero => intro n; simp [cidrMaskBytes, IPOk]
  | succ l ih =>
    intro n
    rw [cidrMaskBytes_succ]
    split_ifs <;>
      [exact IPOk_cons.mpr ⟨by omega, ih _⟩;
       exact IPOk_cons.mpr ⟨lt_of_le_of_lt (Nat.sub_le _ _) (by norm_num), ih _⟩]

theorem maskOnes_cidr : ∀ l n : Nat, n ≤ 8 * l → maskOnes (cidrMaskBytes l n) = some n := by
  intro l
  induction l with
  | zero => intro n hn; interval_cases n; rfl
  | succ l ih =>
    intro n hn
    rw [cidrMaskBytes_succ]
    by_cases h8 : 8 ≤ n
    · rw [if_pos h8]
      have hrec := ih (n - 8) (by omega)
      have hstep : maskOnes (255 :: cidrMaskBytes l (n - 8))
          = (maskOnes (cidrMaskBytes l (n - 8))).map (fun m => 8 + m) := by
        simp [maskOnes]
      rw [hstep, hrec]
      simp only [Option.map_some']
      congr 1
      omega
    · rw [if_neg h8]
      have hne := byteMaskNe255 n (by omega)
      have hlead := byteLeadingOnes n (by omega)
      simp only [maskOnes, if_neg hne, hlead, cidrMaskBytes_zero]
      rw [if_pos]
      intro x hx
      exact List.eq_of_mem_replicate hx

/-! ## Value facts about byte lists -/

theorem ipToNat_replicate255 : ∀ l : Nat, ipToNat (List.replicate l 255) = 2 ^ (8 * l) - 1 := by
  intro l
  induction l with
  | zero => rfl
  | succ l ih =>
    rw [List.replicate_succ, ipToNat_cons, List.length_replicate, ih, pow256]
    have h1 : (1 : Nat) ≤ 2 ^ (8 * l) := Nat.one_le_two_pow
    have h2 : 2 ^ (8 * (l + 1)) = 256 * 2 ^ (8 * l) := by
      rw [show 8 * (l + 1) = 8 * l + 8 by omega, pow_add]
      ring
    omega

theorem ipToNat_zero_eq : ∀ {bs : List Nat}, ipToNat bs = 0 → bs = List.replicate bs.length 0 := by
  intro bs
  induction bs with
  | nil => intro; rfl
  | cons b rest ih =>
    intro h
    rw [ipToNat_cons] at h
    have hp : (0 : Nat) < 256 ^ rest.length := pow_pos (by norm_num) _
    have hb : b = 0 := by nlinarith
    have hr : ipToNat rest = 0 := by omega
    rw [List.length_cons, List.replicate_succ, hb]
    exact congrArg (List.cons 0) (ih hr)

theorem zip_lor_replicate : ∀ l : Nat,
    List.zipWith (fun x y => x ||| y) (List.replicate l 0) (List.replicate l 255) =
      List.replicate l 255 := by
  intro l
  induction l with
  | zero => rfl
  | succ l ih => simp [List.replicate_succ, ih]

/-- Core value fact: for an address aligned to the `n`-prefix boundary,
OR-ing with the wildcard mask of `n` ones sets exactly the host bits, i.e.
produces the aligned value plus `2 ^ hostBits - 1`. -/
theorem ipToNat_lor_wc :
    ∀ (bs : List Nat) (n : Nat), IPOk bs → n ≤ 8 * bs.length →
      ipToNat bs % 2 ^ (8 * bs.length - n) = 0 →
      ipToNat (List.zipWith (fun x y => x ||| y) bs
          (List.map (fun m => 255 - m) (cidrMaskBytes bs.length n)))
        = ipToNat bs + 2 ^ (8 * bs.length - n) - 1 := by
  intro bs
  induction bs with
  | nil =>
    intro n _ hn _
    simp only [List.length_nil, Nat.mul_zero, Nat.le_zero] at hn
    subst hn
    simp [cidrMaskBytes, ipToNat_nil]
  | cons b rest ih =>
    intro n hok hn halign
    rcases IPOk_cons.mp hok with ⟨hb, hrest⟩
    have hR : ipToNat rest < 2 ^ (8 * rest.length) := by
      have := ipToNat_lt hrest
      rwa [pow256] at this
    simp only [List.length_cons] at hn halign ⊢
    by_cases h8 : 8 ≤ n
    · -- full head byte of ones: wildcard head is 0, the head byte is kept
      have hE : 8 * (rest.length + 1) - n = 8 * rest.length - (n - 8) := by omega
      rw [ipToNat_cons, hE] at halign
      have hdvd : (2 : Nat) ^ (8 * rest.length - (n - 8)) ∣ 256 ^ rest.length := by
        rw [pow256]
        exact pow_dvd_pow 2 (by omega)
      have halign2 : ipToNat rest % 2 ^ (8 * rest.length - (n - 8)) = 0 := by
        rcases hdvd with ⟨t, ht⟩
        rw [ht, show b * (2 ^ (8 * rest.length - (n - 8)) * t) + ipToNat rest
            = 2 ^ (8 * rest.length - (n - 8)) * (b * t) + ipToNat rest by ring,
          Nat.mul_add_mod] at halign
        exact halign
      have ihv := ih (n - 8) hrest (by omega) halign2
      rw [cidrMaskBytes_succ, if_pos h8]
      simp only [List.map_cons, List.zipWith_cons_cons, Nat.sub_self, Nat.or_zero]
      rw [ipToNat_cons, ipToNat_cons]
      have hlen : (List.zipWith (fun x y => x ||| y) rest
          (List.map (fun m => 255 - m) (cidrMaskBytes rest.length (n - 8)))).length
          = rest.length := by
        simp [List.length_zipWith, cidrMaskBytes_length]
      rw [hlen, ihv, hE]
      have h1 : (1 : Nat) ≤ 2 ^ (8 * rest.length - (n - 8)) := Nat.one_le_two_pow
      have h2 : ipToNat rest + 2 ^ (8 * rest.length - (n - 8)) ≤ 256 ^ rest.length +
          2 ^ (8 * rest.length - (n - 8)) := by
        have := ipToNat_lt hrest
        omega
      omega
    · -- partial head byte: the tail is all zeros and becomes all ones
      push_neg at h8
      have hE : 8 * (rest.length + 1) - n = (8 - n) + 8 * rest.length := by omega
      rw [ipToNat_cons, hE] at halign
      have hsplit : (2 : Nat) ^ ((8 - n) + 8 * rest.length)
          = 2 ^ (8 - n) * 2 ^ (8 * rest.length) := pow_add 2 _ _
      have hvdvd : 2 ^ (8 - n) * 2 ^ (8 * rest.length) ∣
          b * 256 ^ rest.length + ipToNat rest := by
        rw [← hsplit]
        exact Nat.dvd_of_mod_eq_zero halign
      have hdvd8L : (2 : Nat) ^ (8 * rest.length) ∣ b * 256 ^ rest.length + ipToNat rest :=
        dvd_trans (dvd_mul_left _ _) hvdvd
      have hdvdhead : (2 : Nat) ^ (8 * rest.length) ∣ b * 256 ^ rest.length := by
        rw [pow256]
        exact dvd_mul_left _ _
      have hRzero : ipToNat rest = 0 := by
        have hdvdR : (2 : Nat) ^ (8 * rest.length) ∣ ipToNat rest :=
          (Nat.dvd_add_right hdvdhead).mp hdvd8L
        exact Nat.eq_zero_of_dvd_of_lt hdvdR hR
      have hbdvd : (2 : Nat) ^ (8 - n) ∣ b := by
        have h1 : 2 ^ (8 - n) * 2 ^ (8 * rest.length) ∣ b * 2 ^ (8 * rest.length) := by
          have h2 := hvdvd
          rw [hRzero, Nat.add_zero, pow256] at h2
          exact h2
        exact (Nat.mul_dvd_mul_iff_right (pow_pos (by norm_num) _)).mp h1
      have hbal : b % 2 ^ (8 - n) = 0 := by
        obtain ⟨t, rfl⟩ := hbdvd
        exact Nat.mul_mod_right _ _
      have hrestrep : rest = List.replicate rest.length 0 := ipToNat_zero_eq hRzero
      rw [cidrMaskBytes_succ, if_neg (by omega), cidrMaskBytes_zero]
      simp only [List.map_cons, List.map_replicate, Nat.sub_zero]
      rw [byteWcHead n (by omega)]
      conv_lhs => rw [hrestrep]
      simp only [List.zipWith_cons_cons, List.length_replicate]
      rw [ipToNat_cons, zip_lor_replicate rest.length, List.length_replicate,
        ipToNat_replicate255, byteLorLow b hb n (by omega) hbal, byteShiftVal n (by omega),
        ipToNat_cons, hRzero, pow256, hE, pow_add]
      obtain ⟨k, hk⟩ : ∃ k, 2 ^ (8 - n) = k + 1 := ⟨2 ^ (8 - n) - 1, by
        have h1 : (1 : Nat) ≤ 2 ^ (8 - n) := Nat.one_le_two_pow
        omega⟩
      obtain ⟨x, hx⟩ : ∃ x, 2 ^ (8 * rest.length) = x + 1 := ⟨2 ^ (8 * rest.length) - 1, by
        have h1 : (1 : Nat) ≤ 2 ^ (8 * rest.length) := Nat.one_le_two_pow
        omega⟩
      rw [hk, hx]
      have hdist : (b + (k + 1 - 1)) * (x + 1) = b * (x + 1) + k * (x + 1) := by
        rw [Nat.add_sub_cancel]
        ring
      have hdist2 : (k + 1) * (x + 1) = k * (x + 1) + (x + 1) := by ring
      omega

/-! ## The wrapped host-count computation -/

theorem totalHosts_default (p : Nat) (hp : p ≤ 30) :
    (hostCountShiftU32 p + (2 ^ 32 - 2)) % 2 ^ 32 = 2 ^ (32 - p) - 2 := by
  unfold hostCountShiftU32
  rw [if_pos (by omega)]
  rcases Nat.eq_zero_or_pos p with rfl | hpos
  · norm_num [Nat.shiftLeft_eq]
  · have h1 : (1 : Nat) <<< (32 - p) = 2 ^ (32 - p) := by
      rw [Nat.shiftLeft_eq, one_mul]
    have h2 : (2 : Nat) ^ (32 - p) < 2 ^ 32 :=
      Nat.pow_lt_pow_right (by norm_num) (by omega)
    have h3 : (4 : Nat) ≤ 2 ^ (32 - p) := by
      calc (4 : Nat) = 2 ^ 2 := by norm_num
      _ ≤ 2 ^ (32 - p) := Nat.pow_le_pow_right (by norm_num) (by omega)
    rw [h1, Nat.mod_eq_of_lt h2]
    omega

/-! ## Splitting CIDR text at the slash -/

theorem stringsSplit_no_sep {c : Nat} : ∀ {s : List Nat}, c ∉ s → stringsSplit c s = [s] := by
  intro s
  induction s with
  | nil => intro; rfl
  | cons x rest ih =>
    intro h
    have hx : x ≠ c := by
      intro e
      exact h (by simp [e])
    have hr : c ∉ rest := fun hm => h (List.mem_cons_of_mem _ hm)
    simp only [stringsSplit, ih hr, if_neg hx]

theorem stringsSplit_sandwich {c : Nat} (b : List Nat) (hb : c ∉ b) :
    ∀ a : List Nat, c ∉ a → stringsSplit c (a ++ c :: b) = [a, b] := by
  intro a
  induction a with
  | nil =>
    intro
    simp [stringsSplit, stringsSplit_no_sep hb]
  | cons x a ih =>
    intro ha
    have hx : x ≠ c := by
      intro e
      exact ha (by simp [e])
    have ha2 : c ∉ a := fun hm => ha (List.mem_cons_of_mem _ hm)
    simp only [List.cons_append, stringsSplit, List.append_eq, ih ha2, if_neg hx]

theorem stringsSplit_count : ∀ (c : Nat) (s : List Nat),
    (stringsSplit c s).length = s.count c + 1 := by
  intro c s
  induction s with
  | nil => simp [stringsSplit]
  | cons x rest ih =>
    by_cases hx : x = c
    · subst hx
      simp [stringsSplit, ih, List.count_cons_self]
    · cases hr : stringsSplit c rest with
      | nil =>
        rw [hr] at ih
        simp at ih
      | cons h t =>
        rw [hr] at ih
        simp only [stringsSplit, hr, if_neg hx, List.length_cons] at ih ⊢
        rw [List.count_cons]
        simp [hx]
        omega

/-! ## Symbolic evaluation of validation on two-part inputs -/

theorem validate_two_parts {a b : List Nat} (ha : (47 : Nat) ∉ a) (hb : (47 : Nat) ∉ b) :
    validateCIDRFormat (a ++ 47 :: b) =
      (match netParseIP a with
      | none => some ParseErr.badAddress
      | some ip =>
        if (ipTo4 ip).isNone then some ParseErr.ipv6Address
        else
          match netAtoi b with
          | none => some ParseErr.badPrefixDigits
          | some n => if n < 0 ∨ 32 < n then some ParseErr.prefixOutOfRange else none) := by
  unfold validateCIDRFormat
  have h1 : (a ++ 47 :: b).isEmpty = false := by
    cases a <;> simp
  have h2 : (47 : Nat) ∈ a ++ 47 :: b := by simp
  rw [stringsSplit_sandwich b hb a ha]
  simp [h1, h2]

theorem parseCIDR_validate_err {s : List Nat} {e : ParseErr}
    (h : validateCIDRFormat s = some e) : ParseCIDR s = Except.error e := by
  unfold ParseCIDR
  rw [h]

/-! ## Decimal rendering and the parse/format round trip -/

theorem natDec_shape (n : Nat) (h : n < 256) :
    natDec n =
      if n < 10 then [48 + n]
      else if n < 100 then [48 + n / 10, 48 + n % 10]
      else [48 + n / 100, 48 + n / 10 % 10, 48 + n % 10] := by
  by_cases h1 : n < 10
  · rw [natDec, if_pos h1, if_pos h1]
  · by_cases h2 : n < 100
    · rw [natDec, if_neg h1, natDec, if_pos (by omega : n / 10 < 10),
        if_neg h1, if_pos h2]
      simp
    · rw [natDec, if_neg h1, natDec, if_neg (by omega : ¬ n / 10 < 10),
        natDec, if_pos (by omega : n / 10 / 10 < 10), if_neg h1, if_neg h2,
        Nat.div_div_eq_div_mul]
      simp

theorem natDec_ne_nil (n : Nat) (h : n < 256) : natDec n ≠ [] := by
  rw [natDec_shape n h]
  split_ifs <;> simp

theorem natDec_len_head (n : Nat) (h : n < 256) :
    ((natDec n).length = 1 ∧ n < 10) ∨
      (1 < (natDec n).length ∧ (natDec n).headD 0 ≠ 48) := by
  rw [natDec_shape n h]
  split_ifs with h1 h2
  · exact Or.inl ⟨rfl, h1⟩
  · refine Or.inr ⟨by simp, ?_⟩
    simp only [List.headD_cons]
    omega
  · refine Or.inr ⟨by simp, ?_⟩
    simp only [List.headD_cons]
    omega

theorem dtoi_digits1 (n : Nat) (h : n < 10) (rest : List Nat)
    (hstop : ∀ acc i : Nat, i ≠ 0 → dtoiAux rest acc i = (acc, i, true)) :
    dtoi ((48 + n) :: rest) = (n, 1, true) := by
  unfold dtoi
  rw [show dtoiAux ((48 + n) :: rest) 0 0 = dtoiAux rest (0 * 10 + (48 + n - 48)) (0 + 1) by
    simp only [dtoiAux, if_pos (show 48 ≤ 48 + n ∧ 48 + n ≤ 57 by omega),
      if_neg (show ¬ 16777215 ≤ 0 * 10 + (48 + n - 48) by omega)]]
  rw [hstop _ _ (by omega)]
  rw [show 0 * 10 + (48 + n - 48) = n by omega]

theorem dtoi_digits2 (n : Nat) (h1 : 10 ≤ n) (h : n < 100) (rest : List Nat)
    (hstop : ∀ acc i : Nat, i ≠ 0 → dtoiAux rest acc i = (acc, i, true)) :
    dtoi ((48 + n / 10) :: (48 + n % 10) :: rest) = (n, 2, true) := by
  unfold dtoi
  rw [show dtoiAux ((48 + n / 10) :: (48 + n % 10) :: rest) 0 0
      = dtoiAux ((48 + n % 10) :: rest) (0 * 10 + (48 + n / 10 - 48)) (0 + 1) by
    simp only [dtoiAux, if_pos (show 48 ≤ 48 + n / 10 ∧ 48 + n / 10 ≤ 57 by omega),
      if_neg (show ¬ 16777215 ≤ 0 * 10 + (48 + n / 10 - 48) by omega)]]
  rw [show dtoiAux ((48 + n % 10) :: rest) (0 * 10 + (48 + n / 10 - 48)) (0 + 1)
      = dtoiAux rest ((0 * 10 + (48 + n / 10 - 48)) * 10 + (48 + n % 10 - 48)) (0 + 1 + 1) by
    simp only [dtoiAux, if_pos (show 48 ≤ 48 + n % 10 ∧ 48 + n % 10 ≤ 57 by omega),
      if_neg (show ¬ 16777215 ≤ (0 * 10 + (48 + n / 10 - 48)) * 10 + (48 + n % 10 - 48) by omega)]]
  rw [hstop _ _ (by omega)]
  rw [show (0 * 10 + (48 + n / 10 - 48)) * 10 + (48 + n % 10 - 48) = n by omega]

theorem dtoi_digits3 (n : Nat) (h1 : 100 ≤ n) (h : n < 256) (rest : List Nat)
    (hstop : ∀ acc i : Nat, i ≠ 0 → dtoiAux rest acc i = (acc, i, true)) :
    dtoi ((48 + n / 100) :: (48 + n / 10 % 10) :: (48 + n % 10) :: rest) = (n, 3, true) := by
  unfold dtoi
  rw [show dtoiAux ((48 + n / 100) :: (48 + n / 10 % 10) :: (48 + n % 10) :: rest) 0 0
      = dtoiAux ((48 + n / 10 % 10) :: (48 + n % 10) :: rest)
          (0 * 10 + (48 + n / 100 - 48)) (0 + 1) by
    simp only [dtoiAux, if_pos (show 48 ≤ 48 + n / 100 ∧ 48 + n / 100 ≤ 57 by omega),
      if_neg (show ¬ 16777215 ≤ 0 * 10 + (48 + n / 100 - 48) by omega)]]
  rw [show dtoiAux ((48 + n / 10 % 10) :: (48 + n % 10) :: rest)
        (0 * 10 + (48 + n / 100 - 48)) (0 + 1)
      = dtoiAux ((48 + n % 10) :: rest)
          ((0 * 10 + (48 + n / 100 - 48)) * 10 + (48 + n / 10 % 10 - 48)) (0 + 1 + 1) by
    simp only [dtoiAux, if_pos (show 48 ≤ 48 + n / 10 % 10 ∧ 48 + n / 10 % 10 ≤ 57 by omega),
      if_neg (show ¬ 16777215 ≤
        (0 * 10 + (48 + n / 100 - 48)) * 10 + (48 + n / 10 % 10 - 48) by omega)]]
  rw [show dtoiAux ((48 + n % 10) :: rest)
        ((0 * 10 + (48 + n / 100 - 48)) * 10 + (48 + n / 10 % 10 - 48)) (0 + 1 + 1)
      = dtoiAux rest
          (((0 * 10 + (48 + n / 100 - 48)) * 10 + (48 + n / 10 % 10 - 48)) * 10
            + (48 + n % 10 - 48)) (0 + 1 + 1 + 1) by
    simp only [dtoiAux, if_pos (show 48 ≤ 48 + n % 10 ∧ 48 + n % 10 ≤ 57 by omega),
      if_neg (show ¬ 16777215 ≤
        ((0 * 10 + (48 + n / 100 - 48)) * 10 + (48 + n / 10 % 10 - 48)) * 10
          + (48 + n % 10 - 48) by omega)]]
  rw [hstop _ _ (by omega)]
  rw [show ((0 * 10 + (48 + n / 100 - 48)) * 10 + (48 + n / 10 % 10 - 48)) * 10
      + (48 + n % 10 - 48) = n by omega]

theorem dtoi_natDec (n : Nat) (h : n < 256) (rest : List Nat)
    (hrest : rest = [] ∨ ∃ c rest2, rest = c :: rest2 ∧ ¬(48 ≤ c ∧ c ≤ 57)) :
    dtoi (natDec n ++ rest) = (n, (natDec n).length, true) := by
  have hstop : ∀ acc i : Nat, i ≠ 0 → dtoiAux rest acc i = (acc, i, true) := by
    intro acc i hi
    rcases hrest with rfl | ⟨c, rest2, rfl, hc⟩
    · simp [dtoiAux, hi]
    · simp [dtoiAux, hc, hi]
  rw [natDec_shape n h]
  split_ifs with h1 h2
  · simpa using dtoi_digits1 n h1 rest hstop
  · simpa using dtoi_digits2 n (by omega) h2 rest hstop
  · simpa using dtoi_digits3 n (by omega) h rest hstop

theorem headD_append {l1 l2 : List Nat} (h : l1 ≠ []) :
    (l1 ++ l2).headD 0 = l1.headD 0 := by
  rcases l1 with _ | ⟨x, l⟩
  · exact absurd rfl h
  · simp

theorem parseV4_consume (k : Nat) (first : Bool) (n : Nat) (hn : n < 256)
    (rest acc : List Nat)
    (hrest : rest = [] ∨ ∃ c rest2, rest = c :: rest2 ∧ ¬(48 ≤ c ∧ c ≤ 57)) :
    parseV4Fields (k + 1) first
        (if first then natDec n ++ rest else 46 :: (natDec n ++ rest)) acc
      = parseV4Fields k false rest (n :: acc) := by
  have hd := dtoi_natDec n hn rest hrest
  have hne := natDec_ne_nil n hn
  have hempty : (natDec n ++ rest).isEmpty = false := by
    rcases hl : natDec n with _ | ⟨x, l⟩
    · exact absurd hl hne
    · simp [hl]
  have hn1 : ¬ 255 < n := by omega
  have hlz : ¬(1 < (natDec n).length ∧ (natDec n).headD 0 = 48) := by
    rcases natDec_len_head n hn with ⟨hl1, _⟩ | ⟨hl1, hh⟩
    · omega
    · intro hcon
      exact hh hcon.2
  have hhead : ((natDec n).head?.or rest.head?).getD 0 = (natDec n).headD 0 := by
    rcases hl : natDec n with _ | ⟨x, l⟩
    · exact absurd hl hne
    · simp
  cases first
  · simp only [if_neg (by simp : ¬ (false = true))]
    simp only [parseV4Fields]
    simp [hempty, hd, hn1, List.drop_left]
    intro h1 h2
    rw [hhead] at h2
    exact absurd ⟨h1, h2⟩ hlz
  · simp only [if_pos rfl]
    simp only [parseV4Fields]
    simp [hempty, hd, hn1, List.drop_left]
    intro h1 h2
    rw [hhead] at h2
    exact absurd ⟨h1, h2⟩ hlz

theorem parseV4_consume_first (k n : Nat) (hn : n < 256) (rest acc : List Nat)
    (hrest : rest = [] ∨ ∃ c rest2, rest = c :: rest2 ∧ ¬(48 ≤ c ∧ c ≤ 57)) :
    parseV4Fields (k + 1) true (natDec n ++ rest) acc
      = parseV4Fields k false rest (n :: acc) := by
  simpa using parseV4_consume k true n hn rest acc hrest

theorem parseV4_consume_next (k n : Nat) (hn : n < 256) (rest acc : List Nat)
    (hrest : rest = [] ∨ ∃ c rest2, rest = c :: rest2 ∧ ¬(48 ≤ c ∧ c ≤ 57)) :
    parseV4Fields (k + 1) false (46 :: (natDec n ++ rest)) acc
      = parseV4Fields k false rest (n :: acc) := by
  simpa using parseV4_consume k false n hn rest acc hrest

theorem formatIPv4_four (a b c d : Nat) :
    formatIPv4 [a, b, c, d]
      = natDec a ++ 46 :: (natDec b ++ 46 :: (natDec c ++ 46 :: natDec d)) := by
  simp [formatIPv4, List.intersperse]

theorem parseIPv4_format {ip : List Nat} (hlen : ip.length = 4) (hok : IPOk ip) :
    parseIPv4Go (formatIPv4 ip) = some ip := by
  rcases ip with _ | ⟨a, _ | ⟨b, _ | ⟨c, _ | ⟨d, _ | _⟩⟩⟩⟩ <;> simp_all
  have ha : a < 256 := hok a (by simp)
  have hb : b < 256 := hok b (by simp)
  have hc : c < 256 := hok c (by simp)
  have hd : d < 256 := hok d (by simp)
  rw [formatIPv4_four]
  unfold parseIPv4Go
  rw [parseV4_consume_first 3 a ha _ [] (Or.inr ⟨46, _, rfl, by omega⟩)]
  rw [parseV4_consume_next 2 b hb _ [a] (Or.inr ⟨46, _, rfl, by omega⟩)]
  rw [parseV4_consume_next 1 c hc _ [b, a] (Or.inr ⟨46, _, rfl, by omega⟩)]
  rw [show natDec d = natDec d ++ [] from (List.append_nil _).symm]
  rw [parseV4_consume_next 0 d hd [] [c, b, a] (Or.inl rfl)]
  simp [parseV4Fields]

/-! ## Helper facts for the subnet-enumeration claims -/

theorem calculateUsableRange_preserves (info : NetworkInfo) :
    (calculateUsableRange info).networkID = info.networkID ∧
    (calculateUsableRange info).broadcastAddr = info.broadcastAddr ∧
    (calculateUsableRange info).subnetMask = info.subnetMask ∧
    (calculateUsableRange info).wildcardMask = info.wildcardMask ∧
    (calculateUsableRange info).prefixLength = info.prefixLength := by
  unfold calculateUsableRange
  split_ifs <;> exact ⟨rfl, rfl, rfl, rfl, rfl⟩

theorem ipToNat_lt_u32 {ip : List Nat} (hlen : ip.length = 4) (hok : IPOk ip) :
    ipToNat ip < 2 ^ 32 := by
  have := ipToNat_lt hok
  rw [hlen] at this
  exact lt_of_lt_of_le this (by norm_num)

/-- Value of the broadcast computation on a four-byte aligned network id. -/
theorem broadcast_value {nid : List Nat} (hlen : nid.length = 4) (hok : IPOk nid)
    (n : Nat) (hn : n ≤ 32) (halign : ipToNat nid % 2 ^ (32 - n) = 0) :
    ipToNat (calculateBroadcastAddress nid (calculateWildcardMask (netCIDRMask n 32)))
      = ipToNat nid + 2 ^ (32 - n) - 1 := by
  have key := ipToNat_lor_wc nid n hok (by rw [hlen]; omega) (by rw [hlen]; exact_mod_cast halign)
  rw [hlen] at key
  unfold calculateBroadcastAddress calculateWildcardMask netCIDRMask
  norm_num at key ⊢
  exact key

/-- Aligned addresses leave room for one child block below `2 ^ 32`. -/
theorem aligned_add_lt {v p : Nat} (hp : p ≤ 31) (hv : v < 2 ^ 32)
    (ha : v % 2 ^ (32 - p) = 0) : v + 2 ^ (31 - p) < 2 ^ 32 := by
  obtain ⟨q, hq⟩ := Nat.dvd_of_mod_eq_zero ha
  have h1 : (2 : Nat) ^ (32 - p) = 2 * 2 ^ (31 - p) := by
    rw [show 32 - p = (31 - p) + 1 by omega, pow_succ]
    ring
  have h2 : (2 : Nat) ^ (32 - p) * 2 ^ p = 2 ^ 32 := by
    rw [← pow_add]
    congr 1
    omega
  have hq2 : q < 2 ^ p := by
    by_contra hq2
    push_neg at hq2
    have hge : 2 ^ 32 ≤ v := by
      rw [hq, ← h2]
      exact Nat.mul_le_mul_left _ hq2
    omega
  have h3 : v + 2 ^ (32 - p) ≤ 2 ^ 32 := by
    rw [hq, ← h2]
    calc 2 ^ (32 - p) * q + 2 ^ (32 - p) = 2 ^ (32 - p) * (q + 1) := by ring
    _ ≤ 2 ^ (32 - p) * 2 ^ p := Nat.mul_le_mul_left _ (by omega)
  have h4 : (1 : Nat) ≤ 2 ^ (31 - p) := Nat.one_le_two_pow
  omega

theorem align_step {v p : Nat} (hp : p ≤ 31) (ha : v % 2 ^ (32 - p) = 0) :
    v % 2 ^ (31 - p) = 0 := by
  have hdvd : (2 : Nat) ^ (31 - p) ∣ v :=
    dvd_trans (pow_dvd_pow 2 (by omega)) (Nat.dvd_of_mod_eq_zero ha)
  obtain ⟨t, rfl⟩ := hdvd
  exact Nat.mul_mod_right _ _

/-- The exact two-element result of `CalculateSubnets` below prefix 32. -/
theorem calculateSubnets_structure (network : NetworkInfo)
    (h : network.prefixLength < 32) :
    CalculateSubnets network =
      [{ networkID := network.networkID,
         cidr := ipString network.networkID ++ 47 :: natDec (network.prefixLength + 1),
         broadcastAddr :=
           calculateSubnetBroadcast network.networkID (network.prefixLength + 1) },
       { networkID := addToIP network.networkID (2 ^ (31 - network.prefixLength)),
         cidr := ipString (addToIP network.networkID (2 ^ (31 - network.prefixLength)))
           ++ 47 :: natDec (network.prefixLength + 1),
         broadcastAddr :=
           calculateSubnetBroadcast
             (addToIP network.networkID (2 ^ (31 - network.prefixLength)))
             (network.prefixLength + 1) }] := by
  unfold CalculateSubnets
  rw [if_neg (by omega)]
  simp only []
  have h1 : network.prefixLength + 1 - network.prefixLength = 1 := by omega
  have h2 : 32 - (network.prefixLength + 1) = 31 - network.prefixLength := by omega
  have h3 : (1 : Nat) <<< 1 = 2 := rfl
  have h4 : (1 <<< (31 - network.prefixLength)) % 2 ^ 32 = 2 ^ (31 - network.prefixLength) := by
    rw [Nat.shiftLeft_eq, one_mul]
    exact Nat.mod_eq_of_lt (Nat.pow_lt_pow_right (by norm_num) (by omega))
  rw [h1, h2, h3, h4]
  rw [if_neg (by omega)]
  rfl

/-! ## Claims -/

/-- C1: for every descriptor, the usable-range builder applies the three-way
policy keyed on the prefix length: at 32, first and last usable equal the
network id and the host count is 1; at 31, first = network id, last =
broadcast and the host count is 2; at every prefix length in [0,30], first =
increment of the network id, last = decrement of the broadcast, and the host
count is exactly `2 ^ (32 - prefixLength) - 2`. -/
theorem usableRange_policy (info : NetworkInfo) :
    (info.prefixLength = 32 →
      (calculateUsableRange info).firstUsableIP = info.networkID ∧
      (calculateUsableRange info).lastUsableIP = info.networkID ∧
      (calculateUsableRange info).totalHosts = 1) ∧
    (info.prefixLength = 31 →
      (calculateUsableRange info).firstUsableIP = info.networkID ∧
      (calculateUsableRange info).lastUsableIP = info.broadcastAddr ∧
      (calculateUsableRange info).totalHosts = 2) ∧
    (info.prefixLength ≤ 30 →
      (calculateUsableRange info).firstUsableIP = incrementIP info.networkID ∧
      (calculateUsableRange info).lastUsableIP = decrementIP info.broadcastAddr ∧
      (calculateUsableRange info).totalHosts = 2 ^ (32 - info.prefixLength) - 2) := by
  unfold calculateUsableRange
  refine ⟨?_, ?_, ?_⟩ <;> intro hp
  · rw [if_pos hp]
    exact ⟨rfl, rfl, rfl⟩
  · rw [if_neg (by omega), if_pos hp]
    exact ⟨rfl, rfl, rfl⟩
  · rw [if_neg (by omega), if_neg (by omega)]
    exact ⟨rfl, rfl, totalHosts_default _ hp⟩

/-- C1 witness: the policy evaluated on concrete /24, /31 and /32 descriptors. -/
theorem usableRange_policy_witness :
    ((calculateUsableRange
        (mkInfo [192, 168, 1, 0] [192, 168, 1, 255] [255, 255, 255, 0] [0, 0, 0, 255]
          24)).firstUsableIP = incrementIP [192, 168, 1, 0] ∧
      (calculateUsableRange
        (mkInfo [192, 168, 1, 0] [192, 168, 1, 255] [255, 255, 255, 0] [0, 0, 0, 255]
          24)).totalHosts = 2 ^ (32 - 24) - 2) ∧
    (calculateUsableRange
      (mkInfo [172, 16, 0, 0] [172, 16, 0, 1] [255, 255, 255, 254] [0, 0, 0, 1]
        31)).totalHosts = 2 ∧
    (calculateUsableRange
      (mkInfo [10, 0, 0, 1] [10, 0, 0, 1] [255, 255, 255, 255] [0, 0, 0, 0]
        32)).totalHosts = 1 := by
  refine ⟨?_, ?_, ?_⟩
  · have h := (usableRange_policy
      (mkInfo [192, 168, 1, 0] [192, 168, 1, 255] [255, 255, 255, 0] [0, 0, 0, 255]
        24)).2.2 (by norm_num [mkInfo])
    exact ⟨h.1, h.2.2⟩
  · exact ((usableRange_policy
      (mkInfo [172, 16, 0, 0] [172, 16, 0, 1] [255, 255, 255, 254] [0, 0, 0, 1]
        31)).2.1 rfl).2.2
  · exact ((usableRange_policy
      (mkInfo [10, 0, 0, 1] [10, 0, 0, 1] [255, 255, 255, 255] [0, 0, 0, 0]
        32)).1 rfl).2.2

/-- C2 counterexample: `TotalHosts` is declared as a 32-bit type (`uint32` in
`models.go`), not a 33-bit-or-wider one, and at prefix length 0 the
intermediate shift `1 << 32` is computed in 32 bits and wraps to 0 instead of
the mathematical `2 ^ 32` — the computation does overflow, even though the
final wrapped value 4294967294 is still exact. -/
theorem totalHosts_width_cex :
    totalHostsBitWidth < 33 ∧
    hostCountShiftU32 0 ≠ 1 <<< (32 - 0) ∧
    (calculateUsableRange
      (mkInfo [0, 0, 0, 0] [255, 255, 255, 255] [0, 0, 0, 0] [255, 255, 255, 255]
        0)).totalHosts = 4294967294 := by
  refine ⟨by norm_num [totalHostsBitWidth], by decide, by decide⟩

/-- C2 (amended): `TotalHosts` is a 32-bit unsigned quantity, and for every
prefix length in [0,30] the wrapped computation still yields exactly
`2 ^ (32 - prefixLength) - 2`, a value representable in 32 unsigned bits; at
prefix length 0 the intermediate shift wraps but the final subtraction wraps
back to the exact host count 4294967294. -/
theorem totalHosts_u32_exact (info : NetworkInfo) (hp : info.prefixLength ≤ 30) :
    (calculateUsableRange info).totalHosts = 2 ^ (32 - info.prefixLength) - 2 ∧
    2 ^ (32 - info.prefixLength) - 2 < 2 ^ totalHostsBitWidth := by
  constructor
  · unfold calculateUsableRange
    rw [if_neg (by omega), if_neg (by omega)]
    exact totalHosts_default _ hp
  · have h2 : (2 : Nat) ^ (32 - info.prefixLength) ≤ 2 ^ 32 :=
      Nat.pow_le_pow_right (by norm_num) (by omega)
    have h3 : (2 : Nat) ^ totalHostsBitWidth = 2 ^ 32 := rfl
    omega

/-- C2 witness: the amended statement at the /0 descriptor. -/
theorem totalHosts_u32_exact_witness :
    (calculateUsableRange
      (mkInfo [0, 0, 0, 0] [255, 255, 255, 255] [0, 0, 0, 0] [255, 255, 255, 255]
        0)).totalHosts = 2 ^ (32 - (mkInfo [0, 0, 0, 0] [255, 255, 255, 255] [0, 0, 0, 0]
          [255, 255, 255, 255] 0).prefixLength) - 2 ∧
    2 ^ (32 - (mkInfo [0, 0, 0, 0] [255, 255, 255, 255] [0, 0, 0, 0] [255, 255, 255, 255]
        0).prefixLength) - 2 < 2 ^ totalHostsBitWidth :=
  totalHosts_u32_exact
    (mkInfo [0, 0, 0, 0] [255, 255, 255, 255] [0, 0, 0, 0] [255, 255, 255, 255] 0)
    (by norm_num [mkInfo])

/-- C10: increment and decrement are total and wrap modulo `2 ^ 32`:
incrementing 255.255.255.255 gives 0.0.0.0, decrementing 0.0.0.0 gives
255.255.255.255, and on every four-byte address the increment adds exactly 1
and the decrement subtracts exactly 1 modulo `2 ^ 32`, carrying and borrowing
across all four octets. -/
theorem inc_dec_wrap_exact :
    incrementIP [255, 255, 255, 255] = [0, 0, 0, 0] ∧
    decrementIP [0, 0, 0, 0] = [255, 255, 255, 255] ∧
    ∀ ip : List Nat, ip.length = 4 → IPOk ip →
      ipToNat (incrementIP ip) = (ipToNat ip + 1) % 2 ^ 32 ∧
      ipToNat (decrementIP ip) = (ipToNat ip + (2 ^ 32 - 1)) % 2 ^ 32 := by
  refine ⟨by decide, by decide, ?_⟩
  intro ip hlen hok
  exact ⟨(incrementIP_spec hlen hok).1, (decrementIP_spec hlen hok).1⟩

/-- C10 witness: the wrap equations applied at concrete addresses with a
carry and with a borrow across an octet boundary. -/
theorem inc_dec_wrap_exact_witness :
    ipToNat (incrementIP [10, 0, 0, 255]) = (ipToNat [10, 0, 0, 255] + 1) % 2 ^ 32 ∧
    ipToNat (decrementIP [10, 0, 1, 0]) = (ipToNat [10, 0, 1, 0] + (2 ^ 32 - 1)) % 2 ^ 32 :=
  ⟨(inc_dec_wrap_exact.2.2 [10, 0, 0, 255] (by decide) (by decide)).1,
   (inc_dec_wrap_exact.2.2 [10, 0, 1, 0] (by decide) (by decide)).2⟩

/-- C8: the format/parse round trip is lossless for all representable 32-bit
addresses: parsing the dotted-decimal rendering of any four-byte address
returns exactly that address, and hence formatting the parse of any canonical
dotted-decimal text (the rendering of some address) returns the text itself. -/
theorem format_parse_roundtrip :
    ∀ ip : List Nat, ip.length = 4 → IPOk ip →
      parseIPv4Go (formatIPv4 ip) = some ip ∧
      ∀ s : List Nat, s = formatIPv4 ip → (parseIPv4Go s).map formatIPv4 = some s := by
  intro ip hlen hok
  refine ⟨parseIPv4_format hlen hok, ?_⟩
  rintro s rfl
  rw [parseIPv4_format hlen hok]
  rfl

/-- C8 witness: the round trip at 192.168.1.1. -/
theorem format_parse_roundtrip_witness :
    parseIPv4Go (formatIPv4 [192, 168, 1, 1]) = some [192, 168, 1, 1] :=
  (format_parse_roundtrip [192, 168, 1, 1] (by decide) (by decide)).1

/-- C6: parse on empty text fails with the empty-input error; text without
exactly one slash fails with a format-kind error; with a well-formed IPv4
address part, a prefix substring that is not a base-10 integer fails with a
format-kind error (the invalid-prefix-length message), and a prefix integer
outside [0,32] fails with the range error; none of these inputs parse
successfully. -/
theorem validate_error_kinds :
    (ParseCIDR [] = Except.error ParseErr.emptyInput ∧
      ParseErr.kind ParseErr.emptyInput = ErrKind.emptyInputError) ∧
    (∀ s : List Nat, s ≠ [] → s.count 47 ≠ 1 →
      ∃ e, ParseCIDR s = Except.error e ∧ ParseErr.kind e = ErrKind.formatError) ∧
    (∀ a q : List Nat, 47 ∉ a → 47 ∉ q →
      (∃ ip, netParseIP a = some ip ∧ (ipTo4 ip).isSome) →
      netAtoi q = none →
      ParseCIDR (a ++ 47 :: q) = Except.error ParseErr.badPrefixDigits ∧
      ParseErr.kind ParseErr.badPrefixDigits = ErrKind.formatError) ∧
    (∀ a q : List Nat, 47 ∉ a → 47 ∉ q →
      (∃ ip, netParseIP a = some ip ∧ (ipTo4 ip).isSome) →
      ∀ n : Int, netAtoi q = some n → (n < 0 ∨ 32 < n) →
      ParseCIDR (a ++ 47 :: q) = Except.error ParseErr.prefixOutOfRange ∧
      ParseErr.kind ParseErr.prefixOutOfRange = ErrKind.rangeError) := by
  refine ⟨⟨by decide, rfl⟩, ?_, ?_, ?_⟩
  · intro s hne hcount
    by_cases hin : (47 : Nat) ∈ s
    · refine ⟨ParseErr.badFormat, ?_, rfl⟩
      apply parseCIDR_validate_err
      unfold validateCIDRFormat
      rw [if_neg (by simp [List.isEmpty_eq_false.mpr hne]),
        if_neg (by simpa using hin),
        if_pos (by rw [stringsSplit_count]; omega)]
    · refine ⟨ParseErr.badFormat, ?_, rfl⟩
      apply parseCIDR_validate_err
      unfold validateCIDRFormat
      rw [if_neg (by simp [List.isEmpty_eq_false.mpr hne]), if_pos hin]
  · intro a q ha hq hip hatoi
    rcases hip with ⟨ip, hip1, hip2⟩
    obtain ⟨v, hv⟩ := Option.isSome_iff_exists.mp hip2
    refine ⟨?_, rfl⟩
    apply parseCIDR_validate_err
    rw [validate_two_parts ha hq]
    simp [hip1, hv, hatoi]
  · intro a q ha hq hip n hatoi hrange
    rcases hip with ⟨ip, hip1, hip2⟩
    obtain ⟨v, hv⟩ := Option.isSome_iff_exists.mp hip2
    refine ⟨?_, rfl⟩
    apply parseCIDR_validate_err
    rw [validate_two_parts ha hq]
    simp [hip1, hv, hatoi, hrange]

/-- C6 witness: the four error shapes at concrete inputs, among them the
claim's example 192.168.1.0/33 for the range error. -/
theorem validate_error_kinds_witness :
    ParseCIDR [] = Except.error ParseErr.emptyInput ∧
    (∃ e, ParseCIDR (strBytes "192.168.1.0") = Except.error e ∧
      ParseErr.kind e = ErrKind.formatError) ∧
    ParseCIDR (strBytes "1.2.3.4" ++ 47 :: strBytes "abc")
      = Except.error ParseErr.badPrefixDigits ∧
    ParseCIDR (strBytes "192.168.1.0" ++ 47 :: strBytes "33")
      = Except.error ParseErr.prefixOutOfRange ∧
    strBytes "192.168.1.0" ++ 47 :: strBytes "33" = strBytes "192.168.1.0/33" :=
  ⟨validate_error_kinds.1.1,
   validate_error_kinds.2.1 (strBytes "192.168.1.0") (by decide) (by decide),
   (validate_error_kinds.2.2.1 (strBytes "1.2.3.4") (strBytes "abc") (by decide) (by decide)
     ⟨GoIP.v4 [1, 2, 3, 4], by decide, by decide⟩ (by decide)).1,
   (validate_error_kinds.2.2.2 (strBytes "192.168.1.0") (strBytes "33") (by decide) (by decide)
     ⟨GoIP.v4 [192, 168, 1, 0], by decide, by decide⟩ 33 (by decide) (by decide)).1,
   by decide⟩

/-- C7 counterexample: the address substring of "::ffff:1.2.3.4/64" contains
a colon and genuinely parses as an IPv6 literal (the IPv4-mapped address
::ffff:1.2.3.4), yet parse fails with the range error for the prefix 64, not
with the protocol error the claim requires for every colon-containing
address. -/
theorem ipv6_mapped_not_rejected_cex :
    (58 : Nat) ∈ strBytes "::ffff:1.2.3.4" ∧
    netParseIP (strBytes "::ffff:1.2.3.4")
      = some (GoIP.v6 [0, 0, 0, 0, 0, 0, 0, 0, 0, 0, 255, 255, 1, 2, 3, 4]) ∧
    ParseCIDR (strBytes "::ffff:1.2.3.4/64") = Except.error ParseErr.prefixOutOfRange ∧
    ParseErr.kind ParseErr.prefixOutOfRange ≠ ErrKind.protocolError := by
  refine ⟨by decide, by decide, ?_, by decide⟩
  apply parseCIDR_validate_err
  decide

/-- C7 (amended): every input whose address substring parses as an IPv6
literal that is not IPv4-mapped (To4 fails) is rejected with the protocol
error carrying "IPv6 is not supported", before the prefix is examined;
IPv4-mapped IPv6 literals such as ::ffff:1.2.3.4 pass the IPv6 rejection
despite containing a colon.  In particular 2001:db8::1/64 yields the
protocol error. -/
theorem ipv6_rejection_amended :
    (∀ a q : List Nat, 47 ∉ a → 47 ∉ q →
      ∀ ip, netParseIP a = some ip → ipTo4 ip = none →
      ParseCIDR (a ++ 47 :: q) = Except.error ParseErr.ipv6Address ∧
      ParseErr.kind ParseErr.ipv6Address = ErrKind.protocolError) ∧
    ParseCIDR (strBytes "2001:db8::1/64") = Except.error ParseErr.ipv6Address := by
  constructor
  · intro a q ha hq ip hip h4
    refine ⟨?_, rfl⟩
    apply parseCIDR_validate_err
    rw [validate_two_parts ha hq]
    simp [hip, h4]
  · apply parseCIDR_validate_err
    decide

/-- C7 witness for the amended universal statement: 2001:db8::1 with prefix
text 64, whose parse is a genuine (non-mapped) IPv6 address. -/
theorem ipv6_rejection_amended_witness :
    ParseCIDR (strBytes "2001:db8::1" ++ 47 :: strBytes "64")
      = Except.error ParseErr.ipv6Address :=
  (ipv6_rejection_amended.1 (strBytes "2001:db8::1") (strBytes "64") (by decide) (by decide)
    (GoIP.v6 [32, 1, 13, 184, 0, 0, 0, 0, 0, 0, 0, 0, 0, 0, 0, 1]) (by decide) (by decide)).1

/-- C9 counterexample: 300.1.1.1/24 has the four-component dotted shape with
an octet out of range, but parse fails with the invalid-IP-address-format
error, which the specification classifies as a format error — not with the
range error the claim requires. -/
theorem octet_range_error_cex :
    ParseCIDR (strBytes "300.1.1.1/24") = Except.error ParseErr.badAddress ∧
    ParseErr.kind ParseErr.badAddress = ErrKind.formatError ∧
    ParseErr.kind ParseErr.badAddress ≠ ErrKind.rangeError := by
  refine ⟨?_, rfl, by decide⟩
  apply parseCIDR_validate_err
  decide

/-- C9 (amended): every input whose address substring is taken as IPv4 (a dot
is the first special byte) and fails IPv4 parsing — including any
four-component dotted form with an octet outside [0,255], such as
300.1.1.1/24 — fails with the format-kind invalid-IP-address-format error,
not with a range error. -/
theorem bad_ipv4_address_format_error :
    ∀ a q : List Nat, 47 ∉ a → 47 ∉ q →
      ipDispatch a = some true → parseIPv4Go a = none →
      ParseCIDR (a ++ 47 :: q) = Except.error ParseErr.badAddress ∧
      ParseErr.kind ParseErr.badAddress = ErrKind.formatError := by
  intro a q ha hq hdisp hparse
  refine ⟨?_, rfl⟩
  apply parseCIDR_validate_err
  rw [validate_two_parts ha hq]
  have hnone : netParseIP a = none := by
    unfold netParseIP
    rw [hdisp, hparse]
    rfl
  simp [hnone]

/-- C9 witness for the amended statement: the out-of-range octet input
300.1.1.1 with prefix text 24. -/
theorem bad_ipv4_address_format_error_witness :
    ParseCIDR (strBytes "300.1.1.1" ++ 47 :: strBytes "24")
      = Except.error ParseErr.badAddress :=
  (bad_ipv4_address_format_error (strBytes "300.1.1.1") (strBytes "24") (by decide) (by decide)
    (by decide) (by decide)).1

/-- C3: enumerating subnets of a descriptor at prefix 32 (or more) yields the
empty list, and below 32 yields exactly two subnets, never more (the
100-subnet cap is unreachable, since the subnet count is always
`1 << 1 = 2`): the first child keeps the parent's network id, the second is
the parent's network id offset by `2 ^ (32 - (p + 1))`, and each child's CIDR
text is its network id's dotted-decimal text, a slash, and `p + 1`. -/
theorem calculateSubnets_two_children (network : NetworkInfo) :
    (32 ≤ network.prefixLength → CalculateSubnets network = []) ∧
    (network.prefixLength < 32 →
      ∃ s1 s2, CalculateSubnets network = [s1, s2] ∧
        s1.networkID = network.networkID ∧
        s2.networkID = addToIP network.networkID (2 ^ (32 - (network.prefixLength + 1))) ∧
        s1.cidr = ipString s1.networkID ++ 47 :: natDec (network.prefixLength + 1) ∧
        s2.cidr = ipString s2.networkID ++ 47 :: natDec (network.prefixLength + 1) ∧
        (network.networkID.length = 4 → IPOk network.networkID →
          ipString s1.networkID = formatIPv4 s1.networkID ∧
          ipString s2.networkID = formatIPv4 s2.networkID)) := by
  constructor
  · intro h
    unfold CalculateSubnets
    rw [if_pos h]
  · intro h
    rw [calculateSubnets_structure network h]
    have he : 32 - (network.prefixLength + 1) = 31 - network.prefixLength := by omega
    refine ⟨_, _, rfl, rfl, by rw [he], rfl, rfl, ?_⟩
    intro hlen hok
    constructor
    · show ipString network.networkID = formatIPv4 network.networkID
      unfold ipString
      rw [if_pos hlen]
    · have hlen2 : (addToIP network.networkID (2 ^ (31 - network.prefixLength))).length = 4 :=
        (addToIP_spec _ hlen hok).2.1
      show ipString (addToIP network.networkID (2 ^ (31 - network.prefixLength)))
        = formatIPv4 (addToIP network.networkID (2 ^ (31 - network.prefixLength)))
      unfold ipString
      rw [if_pos hlen2]

/-- C3 witness: the /32 descriptor has no subnets and the /24 descriptor
yields exactly two. -/
theorem calculateSubnets_two_children_witness :
    CalculateSubnets
        (mkInfo [10, 0, 0, 1] [10, 0, 0, 1] [255, 255, 255, 255] [0, 0, 0, 0] 32) = [] ∧
    (CalculateSubnets
        (mkInfo [192, 168, 1, 0] [192, 168, 1, 255] [255, 255, 255, 0] [0, 0, 0, 255]
          24)).length = 2 := by
  constructor
  · exact (calculateSubnets_two_children
      (mkInfo [10, 0, 0, 1] [10, 0, 0, 1] [255, 255, 255, 255] [0, 0, 0, 0] 32)).1
      (by norm_num [mkInfo])
  · obtain ⟨s1, s2, hs, _⟩ := (calculateSubnets_two_children
      (mkInfo [192, 168, 1, 0] [192, 168, 1, 255] [255, 255, 255, 0] [0, 0, 0, 255]
        24)).2 (by norm_num [mkInfo])
    rw [hs]
    rfl

/-- C4: for every well-formed four-byte descriptor with prefix length at most
31 (network id aligned to the prefix boundary and broadcast derived from it),
the two enumerated subnets have contiguous, non-overlapping ranges whose
union is exactly the parent's range [networkId, broadcastAddr], with no gap
or overlap. -/
theorem calculateSubnets_partition (info : NetworkInfo)
    (hp : info.prefixLength ≤ 31)
    (hlen : info.networkID.length = 4)
    (hok : IPOk info.networkID)
    (halign : ipToNat info.networkID % 2 ^ (32 - info.prefixLength) = 0)
    (hbc : info.broadcastAddr = calculateBroadcastAddress info.networkID
      (calculateWildcardMask (netCIDRMask info.prefixLength 32))) :
    ∃ s1 s2, CalculateSubnets info = [s1, s2] ∧
      ipToNat s1.networkID = ipToNat info.networkID ∧
      ipToNat s1.broadcastAddr
        = ipToNat info.networkID + 2 ^ (31 - info.prefixLength) - 1 ∧
      ipToNat s2.networkID = ipToNat info.networkID + 2 ^ (31 - info.prefixLength) ∧
      ipToNat s2.broadcastAddr = ipToNat info.broadcastAddr ∧
      ipToNat info.broadcastAddr
        = ipToNat info.networkID + 2 ^ (32 - info.prefixLength) - 1 ∧
      (∀ x : Nat,
        (ipToNat info.networkID ≤ x ∧ x ≤ ipToNat info.broadcastAddr) ↔
          ((ipToNat s1.networkID ≤ x ∧ x ≤ ipToNat s1.broadcastAddr) ∨
           (ipToNat s2.networkID ≤ x ∧ x ≤ ipToNat s2.broadcastAddr))) ∧
      (∀ x : Nat, ¬((ipToNat s1.networkID ≤ x ∧ x ≤ ipToNat s1.broadcastAddr) ∧
          (ipToNat s2.networkID ≤ x ∧ x ≤ ipToNat s2.broadcastAddr))) := by
  have hv32 : ipToNat info.networkID < 2 ^ 32 := ipToNat_lt_u32 hlen hok
  have hPB : ipToNat info.broadcastAddr
      = ipToNat info.networkID + 2 ^ (32 - info.prefixLength) - 1 := by
    rw [hbc]
    exact broadcast_value hlen hok info.prefixLength (by omega) halign
  have halign1 : ipToNat info.networkID % 2 ^ (31 - info.prefixLength) = 0 :=
    align_step hp halign
  have hCB1 : ipToNat (calculateSubnetBroadcast info.networkID (info.prefixLength + 1))
      = ipToNat info.networkID + 2 ^ (31 - info.prefixLength) - 1 := by
    have hval := broadcast_value hlen hok (info.prefixLength + 1) (by omega)
      (by rw [show 32 - (info.prefixLength + 1) = 31 - info.prefixLength by omega]
          exact halign1)
    rw [show 32 - (info.prefixLength + 1) = 31 - info.prefixLength by omega] at hval
    exact hval
  have hadd := addToIP_spec (2 ^ (31 - info.prefixLength)) hlen hok
  have hlt : ipToNat info.networkID + 2 ^ (31 - info.prefixLength) < 2 ^ 32 :=
    aligned_add_lt hp hv32 halign
  have hv2 : ipToNat (addToIP info.networkID (2 ^ (31 - info.prefixLength)))
      = ipToNat info.networkID + 2 ^ (31 - info.prefixLength) := by
    rw [hadd.1, Nat.mod_eq_of_lt hlt]
  have halign2 : ipToNat (addToIP info.networkID (2 ^ (31 - info.prefixLength)))
      % 2 ^ (31 - info.prefixLength) = 0 := by
    rw [hv2, Nat.add_mod, halign1, Nat.mod_self]
    simp
  have hCB2 : ipToNat (calculateSubnetBroadcast
        (addToIP info.networkID (2 ^ (31 - info.prefixLength))) (info.prefixLength + 1))
      = ipToNat info.networkID + 2 ^ (31 - info.prefixLength)
        + 2 ^ (31 - info.prefixLength) - 1 := by
    have hval := broadcast_value hadd.2.1 hadd.2.2 (info.prefixLength + 1) (by omega)
      (by rw [show 32 - (info.prefixLength + 1) = 31 - info.prefixLength by omega]
          exact halign2)
    rw [show 32 - (info.prefixLength + 1) = 31 - info.prefixLength by omega, hv2] at hval
    exact hval
  have hrel : (2 : Nat) ^ (32 - info.prefixLength) = 2 ^ (31 - info.prefixLength) * 2 := by
    rw [show 32 - info.prefixLength = (31 - info.prefixLength) + 1 by omega, pow_succ]
  have hone : (1 : Nat) ≤ 2 ^ (31 - info.prefixLength) := Nat.one_le_two_pow
  rw [calculateSubnets_structure info (by omega)]
  refine ⟨_, _, rfl, rfl, hCB1, hv2, ?_, hPB, ?_, ?_⟩
  · dsimp only
    rw [hCB2, hPB]
    omega
  · intro x
    dsimp only
    rw [hPB, hCB1, hv2, hCB2]
    omega
  · intro x
    dsimp only
    rw [hCB1, hv2, hCB2]
    omega

/-- C4 witness: the partition at the 192.168.1.0/24 descriptor. -/
theorem calculateSubnets_partition_witness :
    ∃ s1 s2,
      CalculateSubnets
          (mkInfo [192, 168, 1, 0] [192, 168, 1, 255] [255, 255, 255, 0] [0, 0, 0, 255]
            24) = [s1, s2] ∧
      ipToNat s1.networkID = ipToNat [192, 168, 1, 0] ∧
      ipToNat s1.broadcastAddr = ipToNat [192, 168, 1, 0] + 2 ^ (31 - 24) - 1 ∧
      ipToNat s2.networkID = ipToNat [192, 168, 1, 0] + 2 ^ (31 - 24) ∧
      ipToNat s2.broadcastAddr = ipToNat [192, 168, 1, 255] := by
  obtain ⟨s1, s2, hs, h1, h2, h3, h4, _⟩ := calculateSubnets_partition
    (mkInfo [192, 168, 1, 0] [192, 168, 1, 255] [255, 255, 255, 0] [0, 0, 0, 255] 24)
    (by norm_num [mkInfo]) (by decide) (by decide) (by decide) (by decide)
  exact ⟨s1, s2, hs, h1, h2, h3, h4⟩

/-- Byte-wise XOR of a valid mask with its byte complement is all ones. -/
theorem xor_comp_mask {mask : List Nat} (hok : IPOk mask) :
    List.zipWith (fun x y => x ^^^ y) mask (mask.map (fun b => 255 - b))
      = List.replicate mask.length 255 := by
  induction mask with
  | nil => rfl
  | cons b rest ih =>
    rcases IPOk_cons.mp hok with ⟨hb, hrest⟩
    simp only [List.map_cons, List.zipWith_cons_cons, List.length_cons,
      List.replicate_succ, ih hrest]
    congr 1
    exact byteXorComp b hb

theorem ipMaskGo_eq_zip {ip mask : List Nat} (h4 : ip.length = mask.length) :
    ipMaskGo ip mask = List.zipWith (fun x y => x &&& y) ip mask := by
  unfold ipMaskGo
  simp only []
  have hC1 : ¬(mask.length = 16 ∧ ip.length = 4 ∧ ∀ x ∈ List.take 12 mask, x = 255) := by
    rintro ⟨h1, h2, _⟩
    omega
  rw [if_neg hC1]
  have hC2 : ¬(mask.length = 4 ∧ ip.length = 16 ∧ List.take 12 ip = v4InV6Pre) := by
    rintro ⟨h1, h2, _⟩
    omega
  rw [if_neg hC2]
  rw [if_neg (show ¬ ip.length ≠ mask.length by omega)]

theorem netParseCIDR_spec {s : List Nat} {g : GoIP × List Nat × List Nat}
    (h : netParseCIDR s = some g) :
    ∃ n : Nat, n ≤ 8 * g.1.bytes.length ∧
      g.2.2 = netCIDRMask n (8 * g.1.bytes.length) ∧
      g.2.1 = ipMaskGo g.1.bytes g.2.2 := by
  unfold netParseCIDR at h
  split at h
  · exact absurd h (by simp)
  · simp only [] at h
    split at h
    · exact absurd h (by simp)
    · split at h
      · exact absurd h (by simp)
      · rename_i cond
        obtain rfl := Option.some.inj h
        refine ⟨_, ?_, rfl, rfl⟩
        push_neg at cond
        dsimp only
        omega

theorem parseCIDR_ok_inv {s : List Nat} {info : NetworkInfo}
    (h : ParseCIDR s = Except.ok info) :
    ∃ g : GoIP × List Nat × List Nat, netParseCIDR s = some g ∧
      info = calculateUsableRange
        (mkInfo g.2.1 (calculateBroadcastAddress g.2.1 (calculateWildcardMask g.2.2))
          g.2.2 (calculateWildcardMask g.2.2) ((maskOnes g.2.2).getD 0)) := by
  unfold ParseCIDR at h
  split at h
  · exact absurd h (by simp)
  · split at h
    · exact absurd h (by simp)
    · rename_i ip netIP mask heq
      split at h
      · exact absurd h (by simp)
      · exact ⟨(ip, netIP, mask), heq, (Except.ok.inj h).symm⟩

/-- C5: every successfully parsed input yields a descriptor whose subnet mask
is exactly `prefixLength` one bits followed by zero bits, whose wildcard mask
is the exact bitwise complement of the subnet mask, whose network id is the
parsed (possibly non-canonical) input address AND the subnet mask, and whose
broadcast address is the network id OR the wildcard mask. -/
theorem parse_descriptor_invariants :
    ∀ (s : List Nat) (info : NetworkInfo), ParseCIDR s = Except.ok info →
      maskOnes info.subnetMask = some info.prefixLength ∧
      info.wildcardMask = info.subnetMask.map (fun b => 255 - b) ∧
      List.zipWith (fun x y => x ^^^ y) info.subnetMask info.wildcardMask
        = List.replicate info.subnetMask.length 255 ∧
      (∃ g : GoIP × List Nat × List Nat, netParseCIDR s = some g ∧
        info.networkID = List.zipWith (fun x y => x &&& y) g.1.bytes info.subnetMask) ∧
      info.broadcastAddr
        = List.zipWith (fun x y => x ||| y) info.networkID info.wildcardMask := by
  intro s info h
  obtain ⟨g, hg, rfl⟩ := parseCIDR_ok_inv h
  obtain ⟨n, hn, hmask, hnet⟩ := netParseCIDR_spec hg
  have hL8 : (8 * g.1.bytes.length) / 8 = g.1.bytes.length :=
    Nat.mul_div_cancel_left _ (by norm_num)
  have hmask2 : g.2.2 = cidrMaskBytes g.1.bytes.length n := by
    rw [hmask]
    unfold netCIDRMask
    rw [hL8]
  have hmaskOnes : maskOnes g.2.2 = some n := by
    rw [hmask2]
    exact maskOnes_cidr _ _ hn
  have hmaskOk : IPOk g.2.2 := by
    rw [hmask2]
    exact cidrMaskBytes_ok _ _
  have hmaskLen : g.2.2.length = g.1.bytes.length := by
    rw [hmask2]
    exact cidrMaskBytes_length _ _
  have hpres := calculateUsableRange_preserves
    (mkInfo g.2.1 (calculateBroadcastAddress g.2.1 (calculateWildcardMask g.2.2))
      g.2.2 (calculateWildcardMask g.2.2) ((maskOnes g.2.2).getD 0))
  refine ⟨?_, ?_, ?_, ⟨g, hg, ?_⟩, ?_⟩
  · rw [hpres.2.2.1, hpres.2.2.2.2]
    show maskOnes g.2.2 = some ((maskOnes g.2.2).getD 0)
    rw [hmaskOnes]
    rfl
  · rw [hpres.2.2.1, hpres.2.2.2.1]
    rfl
  · rw [hpres.2.2.1, hpres.2.2.2.1]
    show List.zipWith (fun x y => x ^^^ y) g.2.2 (calculateWildcardMask g.2.2)
      = List.replicate g.2.2.length 255
    exact xor_comp_mask hmaskOk
  · rw [hpres.1, hpres.2.2.1]
    show g.2.1 = List.zipWith (fun x y => x &&& y) g.1.bytes g.2.2
    rw [hnet]
    exact ipMaskGo_eq_zip hmaskLen.symm
  · rw [hpres.1, hpres.2.1, hpres.2.2.2.1]
    rfl

/-- C5 witness: the invariants of the descriptor parsed from the
non-canonical input 192.168.1.77/24 (the network id is derived by masking). -/
theorem parse_descriptor_invariants_witness :
    maskOnes [255, 255, 255, 0] = some 24 ∧
    List.zipWith (fun x y => x ^^^ y) [255, 255, 255, 0] [0, 0, 0, 255]
      = List.replicate 4 255 ∧
    ∃ g : GoIP × List Nat × List Nat,
      netParseCIDR (strBytes "192.168.1.77/24") = some g ∧
      [192, 168, 1, 0] = List.zipWith (fun x y => x &&& y) g.1.bytes [255, 255, 255, 0] := by
  have h := parse_descriptor_invariants (strBytes "192.168.1.77/24")
    { networkID := [192, 168, 1, 0]
      broadcastAddr := [192, 168, 1, 255]
      subnetMask := [255, 255, 255, 0]
      wildcardMask := [0, 0, 0, 255]
      firstUsableIP := [192, 168, 1, 1]
      lastUsableIP := [192, 168, 1, 254]
      totalHosts := 254
      prefixLength := 24 } (by decide)
  exact ⟨h.1, h.2.2.1, h.2.2.2.1⟩

end CIDRCalc
